import Mathlib

/-!
Shallow embedding of the chunked-upload backend
(`doc-ai/backend_chunked_endpoints.py`) and proofs about its claims.

The module keeps an in-memory registry of upload sessions (a Python dict
`upload_sessions`), writes each chunk to a file `temp_chunks/{uploadId}_chunk_{i}`,
and on completion concatenates the chunks in ascending index order into a
final artifact under `static/uploads/...`.

Modelling conventions:
- Python dicts are association lists with replace-in-place insertion
  (`dinsert`) and first-match lookup (`dlookup`); Python dict keys are unique,
  which the operations preserve.
- The filesystem is two association lists keyed by path: `chunkFiles` for the
  `temp_chunks` directory and `artifacts` for the assembled files.
- `uuid.uuid4()` is modelled by a counter `nextUuid` rendered through
  `uuidGen`, and `datetime.utcnow()` by a `clock : Nat` field read without
  being advanced.
- Byte strings are `List Nat`.
- Each endpoint's `try/except Exception` wrapper is modelled faithfully: the
  raised validation error is captured and re-raised wrapped
  (`UploadError.failedInit` / `.failedChunk` / `.failedComplete`), and for
  `complete` the handler's cleanup (deleting the session's chunk files and the
  session itself) is performed, exactly as lines 264-277 of the source do.
- Integer fields coming from the request (`totalSize`, `chunkSize`,
  `totalChunks`, `chunkIndex`) are `Int`, as Python ints are signed; Python's
  floor division `//` is `Int.fdiv`, and `range(n)` for possibly negative `n`
  is `List.range n.toNat`.
-/

namespace DocAI

/-- Byte payloads are lists of bytes. -/
abbrev Bytes := List Nat

/-! ### Python-dict association lists -/

/-- Lookup in an association list (Python `d[k]` / `k in d`). -/
def dlookup {α β : Type} [DecidableEq α] : List (α × β) → α → Option β
  | [], _ => none
  | (k, v) :: rest, a => if k = a then some v else dlookup rest a

/-- Insertion with Python-dict semantics: replace in place if the key exists,
append otherwise. -/
def dinsert {α β : Type} [DecidableEq α] : List (α × β) → α → β → List (α × β)
  | [], a, b => [(a, b)]
  | (k, v) :: rest, a, b =>
    if k = a then (k, b) :: rest else (k, v) :: dinsert rest a b

/-- Removal of a key (Python `del d[k]`, or `Path.unlink` on the file maps). -/
def derase {α β : Type} [DecidableEq α] (l : List (α × β)) (a : α) :
    List (α × β) :=
  l.filter (fun e => e.1 ≠ a)

/-- The keys of an association list (Python `d.keys()`). -/
def dkeys {α β : Type} (l : List (α × β)) : List α := l.map Prod.fst

/-! ### Data model -/

/-- One entry of `upload_sessions`: the dict built at source lines 83-96.
`chunks` maps a (validated, hence nonnegative) chunk index to the path of its
chunk file. -/
structure UploadSession where
  uploadId : String
  fileName : String
  totalSize : Int
  chunkSize : Int
  totalChunks : Int
  fileType : Option String
  projectId : Option String
  folderId : Option String
  chunks : List (Nat × String)
  createdAt : Nat
  expiresAt : Nat
  status : String
deriving DecidableEq

/-- The whole server state: the session registry, the `temp_chunks` directory,
the `static/uploads` tree, the uuid source and the clock. -/
structure ServerState where
  sessions : List (String × UploadSession)
  chunkFiles : List (String × Bytes)
  artifacts : List (String × Bytes)
  nextUuid : Nat
  clock : Nat
deriving DecidableEq

/-- Error taxonomy surfaced by the endpoints.  The `failed*` constructors model
the blanket `except Exception` handlers that re-raise every inner error as a
generic 500 failure (source lines 110-112, 167-169, 264-277). -/
inductive UploadError where
  | sessionNotFound
  | invalidChunkCount (expected got : Int)
  | invalidChunkIndex (got total : Int)
  | missingChunks (missing : List Nat)
  | sizeMismatch (expected : Int) (got : Nat)
  | storageFailure
  | zeroDivisionError
  | failedInit (e : UploadError)
  | failedChunk (e : UploadError)
  | failedComplete (e : UploadError)
deriving DecidableEq

/-- Response of `/chunked/init`. -/
structure InitResponse where
  uploadId : String
  chunkSize : Int
  totalChunks : Int
  expiresAt : Nat
deriving DecidableEq

/-- Response dict of `/chunked/upload`.  The first-time branch (source lines
160-165) returns `chunkIndex` and `chunkSize`; the idempotent branch (line
142) returns only `success` and `message`, so those fields are `Option`s. -/
structure ChunkResponse where
  success : Bool
  chunkIndex : Option Int
  chunkSize : Option Nat
  message : String
deriving DecidableEq

/-- Response of `/chunked/complete`. -/
structure CompleteResponse where
  fileId : String
  fileName : String
  url : String
  size : Nat
  message : String
deriving DecidableEq

/-- Response of `/chunked/status/{id}`.  The Python float `progress` is
modelled as the exact rational it computes. -/
structure StatusResponse where
  uploadId : String
  fileName : String
  totalChunks : Int
  receivedChunks : Nat
  missingChunks : List Nat
  status : String
  progress : Rat
deriving DecidableEq

/-- `str(uuid.uuid4())`, modelled as a counter-indexed fresh name. -/
def uuidGen (n : Nat) : String := "uuid-" ++ toString n

/-- `str(chunk_storage_path / f"{uploadId}_chunk_{chunkIndex}")`
(source lines 148-149). -/
def chunkPath (uploadId : String) (chunkIndex : Int) : String :=
  "temp_chunks/" ++ uploadId ++ "_chunk_" ++ toString chunkIndex

/-! ### Operations -/

/-- `initialize_chunked_upload` (source lines 57-112).  The uuid is drawn
before validation but only recorded on success; `//` is floor division, and a
zero `chunkSize` raises `ZeroDivisionError`, caught by the blanket handler. -/
def initialize_chunked_upload (st : ServerState) (fileName : String)
    (totalSize chunkSize totalChunks : Int)
    (fileType projectId folderId : Option String) :
    Except UploadError InitResponse × ServerState :=
  if chunkSize = 0 then
    (.error (.failedInit .zeroDivisionError), st)
  else
    let uploadId := uuidGen st.nextUuid
    let expectedChunks := (totalSize + chunkSize - 1).fdiv chunkSize
    if totalChunks ≠ expectedChunks then
      (.error (.failedInit (.invalidChunkCount expectedChunks totalChunks)), st)
    else
      let session : UploadSession :=
        { uploadId := uploadId, fileName := fileName, totalSize := totalSize,
          chunkSize := chunkSize, totalChunks := totalChunks,
          fileType := fileType, projectId := projectId, folderId := folderId,
          chunks := [], createdAt := st.clock, expiresAt := st.clock,
          status := "initialized" }
      (.ok { uploadId := uploadId, chunkSize := chunkSize,
             totalChunks := totalChunks, expiresAt := session.expiresAt },
       { st with sessions := dinsert st.sessions uploadId session,
                 nextUuid := st.nextUuid + 1 })

/-- `upload_chunk` (source lines 114-169). -/
def upload_chunk (st : ServerState) (uploadId : String) (chunkIndex : Int)
    (chunkData : Bytes) : Except UploadError ChunkResponse × ServerState :=
  match dlookup st.sessions uploadId with
  | none => (.error (.failedChunk .sessionNotFound), st)
  | some session =>
    if chunkIndex < 0 ∨ session.totalChunks ≤ chunkIndex then
      (.error (.failedChunk (.invalidChunkIndex chunkIndex session.totalChunks)),
       st)
    else
      match dlookup session.chunks chunkIndex.toNat with
      | some _ =>
        (.ok { success := true, chunkIndex := none, chunkSize := none,
               message := "Chunk " ++ toString chunkIndex ++ " already received" },
         st)
      | none =>
        let path := chunkPath uploadId chunkIndex
        let session' :=
          { session with chunks := dinsert session.chunks chunkIndex.toNat path }
        (.ok { success := true, chunkIndex := some chunkIndex,
               chunkSize := some chunkData.length,
               message := "Chunk " ++ toString chunkIndex
                 ++ " uploaded successfully" },
         { st with chunkFiles := dinsert st.chunkFiles path chunkData,
                   sessions := dinsert st.sessions uploadId session' })

/-- Python truthiness of the optional scope ids (`if project_id:`). -/
def truthy : Option String → Bool
  | none => false
  | some s => s ≠ ""

/-- The destination directory chosen at source lines 204-209. -/
def destDir (s : UploadSession) : String :=
  if truthy s.projectId then "static/uploads/" ++ s.projectId.getD ""
  else if truthy s.folderId then "static/uploads/folders/" ++ s.folderId.getD ""
  else "static/uploads/temp"

/-- Result of the assembly loop: the remaining chunk files and the bytes
written to the final artifact so far.  `readError` models a missing chunk
file (Python `FileNotFoundError` escaping the loop, leaving the partially
written artifact behind). -/
inductive AssembleResult where
  | ok (files : List (String × Bytes)) (data : Bytes)
  | readError (files : List (String × Bytes)) (data : Bytes)
deriving DecidableEq

/-- The assembly loop (source lines 219-234): for each chunk (taken in
ascending index order), read its file, append the bytes to the artifact and
delete the chunk file. -/
def assembleChunks :
    List (String × Bytes) → List (Nat × String) → Bytes → AssembleResult
  | files, [], acc => .ok files acc
  | files, (_, path) :: rest, acc =>
    match dlookup files path with
    | none => .readError files acc
    | some data => assembleChunks (derase files path) rest (acc ++ data)

/-- `sorted(session["chunks"].keys())` together with the per-key dict lookup:
the chunk items in ascending key order. -/
def sortChunks (c : List (Nat × String)) : List (Nat × String) :=
  List.insertionSort (fun a b => a.1 ≤ b.1) c

/-- Delete every chunk file recorded in a session (best-effort loop at source
lines 270-274 and 310-314). -/
def eraseChunkFiles (files : List (String × Bytes))
    (chunks : List (Nat × String)) : List (String × Bytes) :=
  chunks.foldl (fun fs e => derase fs e.2) files

/-- The `except Exception` handler of `complete_chunked_upload` (source lines
264-277): if the session is still registered, delete all its chunk files and
drop the session, then re-raise the error wrapped as a generic failure. -/
def completeCleanup (st : ServerState) (uploadId : String) (err : UploadError) :
    Except UploadError CompleteResponse × ServerState :=
  match dlookup st.sessions uploadId with
  | none => (.error (.failedComplete err), st)
  | some session =>
    (.error (.failedComplete err),
     { st with chunkFiles := eraseChunkFiles st.chunkFiles session.chunks,
               sessions := derase st.sessions uploadId })

/-- `complete_chunked_upload` (source lines 171-277). -/
def complete_chunked_upload (st : ServerState) (uploadId : String) :
    Except UploadError CompleteResponse × ServerState :=
  match dlookup st.sessions uploadId with
  | none => (.error (.failedComplete .sessionNotFound), st)
  | some session =>
    let expected := List.range session.totalChunks.toNat
    let received := dkeys session.chunks
    if (expected.all (fun i => received.contains i)
        && received.all (fun i => expected.contains i)) = false then
      completeCleanup st uploadId
        (.missingChunks (expected.filter (fun i => received.contains i = false)))
    else
      let fileId := uuidGen st.nextUuid
      let st1 := { st with nextUuid := st.nextUuid + 1 }
      let sanitizedFilename := fileId ++ "_" ++ session.fileName
      let finalFilePath := destDir session ++ "/" ++ sanitizedFilename
      match assembleChunks st1.chunkFiles (sortChunks session.chunks) [] with
      | .readError files dataSoFar =>
        completeCleanup
          { st1 with chunkFiles := files,
                     artifacts := dinsert st1.artifacts finalFilePath dataSoFar }
          uploadId .storageFailure
      | .ok files data =>
        if (data.length : Int) ≠ session.totalSize then
          completeCleanup
            { st1 with chunkFiles := files,
                       artifacts := derase st1.artifacts finalFilePath }
            uploadId (.sizeMismatch session.totalSize data.length)
        else
          (.ok { fileId := fileId, fileName := sanitizedFilename,
                 url := finalFilePath, size := data.length,
                 message := "File " ++ session.fileName
                   ++ " uploaded successfully via chunked upload" },
           { st1 with chunkFiles := files,
                      artifacts := dinsert st1.artifacts finalFilePath data,
                      sessions := derase st1.sessions uploadId })

/-- `get_upload_status` (source lines 279-297); read-only, no `try` wrapper. -/
def get_upload_status (st : ServerState) (uploadId : String) :
    Except UploadError StatusResponse × ServerState :=
  match dlookup st.sessions uploadId with
  | none => (.error .sessionNotFound, st)
  | some session =>
    (.ok { uploadId := uploadId, fileName := session.fileName,
           totalChunks := session.totalChunks,
           receivedChunks := session.chunks.length,
           missingChunks := (List.range session.totalChunks.toNat).filter
             (fun i => (dkeys session.chunks).contains i = false),
           status := session.status,
           progress := (session.chunks.length : Rat)
             / (session.totalChunks : Rat) * 100 }, st)

/-- `cancel_chunked_upload` (source lines 299-321); no `try` wrapper. -/
def cancel_chunked_upload (st : ServerState) (uploadId : String) :
    Except UploadError String × ServerState :=
  match dlookup st.sessions uploadId with
  | none => (.error .sessionNotFound, st)
  | some session =>
    (.ok ("Upload " ++ uploadId ++ " cancelled successfully"),
     { st with chunkFiles := eraseChunkFiles st.chunkFiles session.chunks,
               sessions := derase st.sessions uploadId })

end DocAI


namespace DocAI

/-! ### Association-list lemmas -/

theorem dlookup_dinsert_self {α β : Type} [DecidableEq α] (l : List (α × β))
    (k : α) (v : β) : dlookup (dinsert l k v) k = some v := by
  induction l with
  | nil => simp [dinsert, dlookup]
  | cons e rest ih =>
    obtain ⟨k', v'⟩ := e
    by_cases h : k' = k
    · subst h; simp [dinsert, dlookup]
    · simp [dinsert, dlookup, h, ih]

theorem dlookup_dinsert_ne {α β : Type} [DecidableEq α] (l : List (α × β))
    {k k' : α} (v : β) (h : k' ≠ k) :
    dlookup (dinsert l k v) k' = dlookup l k' := by
  have h2 : ¬ k = k' := fun hh => h hh.symm
  induction l with
  | nil => simp [dinsert, dlookup, h2]
  | cons e rest ih =>
    obtain ⟨a, b⟩ := e
    by_cases ha : a = k
    · subst ha
      simp [dinsert, dlookup, h2]
    · by_cases ha' : a = k'
      · subst ha'; simp [dinsert, dlookup, ha]
      · simp [dinsert, dlookup, ha, ha', ih]

theorem dlookup_derase_self {α β : Type} [DecidableEq α] (l : List (α × β))
    (k : α) : dlookup (derase l k) k = none := by
  induction l with
  | nil => simp [derase, dlookup]
  | cons e rest ih =>
    obtain ⟨a, b⟩ := e
    by_cases ha : a = k
    · subst ha; simpa [derase, List.filter] using ih
    · simpa [derase, List.filter, ha, dlookup] using ih

theorem dlookup_derase_ne {α β : Type} [DecidableEq α] (l : List (α × β))
    {k k' : α} (h : k' ≠ k) : dlookup (derase l k) k' = dlookup l k' := by
  induction l with
  | nil => simp [derase, dlookup]
  | cons e rest ih =>
    obtain ⟨a, b⟩ := e
    by_cases ha : a = k
    · subst ha
      have : ¬ a = k' := fun hh => h hh.symm
      simpa [derase, List.filter, dlookup, this] using ih
    · by_cases ha' : a = k'
      · subst ha'; simp [derase, List.filter, dlookup, ha, ih]
      · simpa [derase, List.filter, dlookup, ha, ha'] using ih

theorem dlookup_eq_none_iff {α β : Type} [DecidableEq α] (l : List (α × β))
    (k : α) : dlookup l k = none ↔ k ∉ dkeys l := by
  induction l with
  | nil => simp [dlookup, dkeys]
  | cons e rest ih =>
    obtain ⟨a, b⟩ := e
    by_cases ha : a = k
    · subst ha; simp [dlookup, dkeys]
    · have hne : ¬ k = a := fun hh => ha hh.symm
      simp [dlookup, dkeys, ha, ih, hne]

theorem dlookup_mem {α β : Type} [DecidableEq α] {l : List (α × β)} {k : α}
    {v : β} (h : dlookup l k = some v) : (k, v) ∈ l := by
  induction l with
  | nil => simp [dlookup] at h
  | cons e rest ih =>
    obtain ⟨a, b⟩ := e
    by_cases ha : a = k
    · subst ha
      simp [dlookup] at h
      subst h; exact List.mem_cons_self _ _
    · simp [dlookup, ha] at h
      exact List.mem_cons_of_mem _ (ih h)

theorem mem_dinsert {α β : Type} [DecidableEq α] {l : List (α × β)}
    {k : α} {v : β} {e : α × β} (h : e ∈ dinsert l k v) :
    e ∈ l ∨ e = (k, v) := by
  induction l with
  | nil => simp [dinsert] at h; simp [h]
  | cons f rest ih =>
    obtain ⟨a, b⟩ := f
    by_cases ha : a = k
    · subst ha
      simp [dinsert] at h
      rcases h with h | h
      · right; simp [h]
      · left; exact List.mem_cons_of_mem _ h
    · simp [dinsert, ha] at h
      rcases h with h | h
      · left; simp [h]
      · rcases ih h with h' | h'
        · left; exact List.mem_cons_of_mem _ h'
        · right; exact h'

theorem dkeys_dinsert {α β : Type} [DecidableEq α] (l : List (α × β))
    (k : α) (v : β) :
    dkeys (dinsert l k v) =
      if k ∈ dkeys l then dkeys l else dkeys l ++ [k] := by
  induction l with
  | nil => simp [dinsert, dkeys]
  | cons e rest ih =>
    obtain ⟨a, b⟩ := e
    by_cases ha : a = k
    · subst ha; simp [dinsert, dkeys]
    · have hne : ¬ k = a := fun hh => ha hh.symm
      by_cases hk : k ∈ dkeys rest
      · simp only [dkeys] at ih hk
        simp [dinsert, dkeys, ha, hk, hne, ih]
      · simp only [dkeys] at ih hk
        simp [dinsert, dkeys, ha, hk, hne, ih]

theorem dinsert_eq_append {α β : Type} [DecidableEq α] {l : List (α × β)}
    {k : α} (v : β) (h : dlookup l k = none) :
    dinsert l k v = l ++ [(k, v)] := by
  induction l with
  | nil => simp [dinsert]
  | cons e rest ih =>
    obtain ⟨a, b⟩ := e
    by_cases ha : a = k
    · subst ha; simp [dlookup] at h
    · simp [dlookup, ha] at h
      simp [dinsert, ha, ih h]

theorem dinsert_dinsert_same {α β : Type} [DecidableEq α] (l : List (α × β))
    (k : α) (v w : β) : dinsert (dinsert l k v) k w = dinsert l k w := by
  induction l with
  | nil => simp [dinsert]
  | cons e rest ih =>
    obtain ⟨a, b⟩ := e
    by_cases ha : a = k
    · subst ha; simp [dinsert]
    · simp [dinsert, ha, ih]

theorem dlookup_append_right {α β : Type} [DecidableEq α] {l₁ : List (α × β)}
    (l₂ : List (α × β)) {k : α} (h : dlookup l₁ k = none) :
    dlookup (l₁ ++ l₂) k = dlookup l₂ k := by
  induction l₁ with
  | nil => simp
  | cons e rest ih =>
    obtain ⟨a, b⟩ := e
    by_cases ha : a = k
    · subst ha; simp [dlookup] at h
    · simp [dlookup, ha] at h ⊢
      exact ih h

theorem dlookup_append_left {α β : Type} [DecidableEq α] {l₁ : List (α × β)}
    (l₂ : List (α × β)) {k : α} {v : β} (h : dlookup l₁ k = some v) :
    dlookup (l₁ ++ l₂) k = some v := by
  induction l₁ with
  | nil => simp [dlookup] at h
  | cons e rest ih =>
    obtain ⟨a, b⟩ := e
    by_cases ha : a = k
    · subst ha; simp [dlookup] at h ⊢; exact h
    · simp [dlookup, ha] at h ⊢
      exact ih h

end DocAI

namespace DocAI

/-! ### Chunk-file cleanup and assembly lemmas -/

theorem eraseChunkFiles_cons (F : List (String × Bytes)) (c : Nat × String)
    (rest : List (Nat × String)) :
    eraseChunkFiles F (c :: rest) = eraseChunkFiles (derase F c.2) rest := rfl

theorem dlookup_eraseChunkFiles (F : List (String × Bytes))
    (cs : List (Nat × String)) (p : String) :
    dlookup (eraseChunkFiles F cs) p =
      if p ∈ cs.map Prod.snd then none else dlookup F p := by
  induction cs generalizing F with
  | nil => simp [eraseChunkFiles]
  | cons c rest ih =>
    rw [eraseChunkFiles_cons, ih]
    by_cases hp : p ∈ rest.map Prod.snd
    · simp [hp]
    · by_cases hc : p = c.2
      · subst hc; simp [hp, dlookup_derase_self]
      · simp [hp, hc, dlookup_derase_ne _ hc]

theorem countP_key_eq_zero {F : List (String × Bytes)} {p : String}
    (h : dlookup F p = none) :
    F.countP (fun e => e.1 == p) = 0 := by
  induction F with
  | nil => simp
  | cons e rest ih =>
    obtain ⟨a, b⟩ := e
    by_cases ha : a = p
    · subst ha; simp [dlookup] at h
    · simp [dlookup, ha] at h
      simp [List.countP_cons, ha, ih h]

/-- The assembly loop, run on chunk items whose files are all present and
pairwise distinct, succeeds, deletes exactly those files, and produces the
concatenation of the per-item payloads in item order. -/
theorem assembleChunks_ok (payload : Nat → Bytes) :
    ∀ (items : List (Nat × String)) (F : List (String × Bytes)) (acc : Bytes),
    (items.map Prod.snd).Nodup →
    (∀ e ∈ items, dlookup F e.2 = some (payload e.1)) →
    assembleChunks F items acc =
      .ok (eraseChunkFiles F items)
        (acc ++ (items.map (fun e => payload e.1)).flatten) := by
  intro items
  induction items with
  | nil =>
    intro F acc _ _
    simp [assembleChunks, eraseChunkFiles]
  | cons c rest ih =>
    intro F acc hnd hdata
    obtain ⟨i, p⟩ := c
    have hp : dlookup F p = some (payload i) :=
      hdata (i, p) (List.mem_cons_self _ _)
    simp only [List.map_cons, List.nodup_cons] at hnd
    have hdata' : ∀ e ∈ rest, dlookup (derase F p) e.2 = some (payload e.1) := by
      intro e he
      have hne : e.2 ≠ p := by
        intro hh
        exact hnd.1 (hh ▸ List.mem_map_of_mem Prod.snd he)
      rw [dlookup_derase_ne _ hne]
      exact hdata e (List.mem_cons_of_mem _ he)
    have step : assembleChunks F ((i, p) :: rest) acc =
        assembleChunks (derase F p) rest (acc ++ payload i) := by
      simp [assembleChunks, hp]
    rw [step, ih (derase F p) (acc ++ payload i) hnd.2 hdata',
      eraseChunkFiles_cons]
    simp [List.append_assoc]

/-! ### Sorting lemmas -/

instance : IsTotal (Nat × String) (fun a b : Nat × String => a.1 ≤ b.1) :=
  ⟨fun a b => Nat.le_total a.1 b.1⟩

instance : IsTrans (Nat × String) (fun a b : Nat × String => a.1 ≤ b.1) :=
  ⟨fun _ _ _ h h' => Nat.le_trans h h'⟩

theorem sortChunks_perm (c : List (Nat × String)) : (sortChunks c).Perm c :=
  List.perm_insertionSort _ c

/-- If the keys of a chunk dict are exactly `[0, n)`, then sorting its items
by key lists the keys as `range n`. -/
theorem sortChunks_map_fst_eq_range (c : List (Nat × String)) (n : Nat)
    (hnd : (c.map Prod.fst).Nodup)
    (hcov : ∀ i, i ∈ c.map Prod.fst ↔ i < n) :
    (sortChunks c).map Prod.fst = List.range n := by
  have hperm : ((sortChunks c).map Prod.fst).Perm (c.map Prod.fst) :=
    (sortChunks_perm c).map _
  have hperm2 : (c.map Prod.fst).Perm (List.range n) := by
    rw [List.perm_ext_iff_of_nodup hnd (List.nodup_range n)]
    intro a
    simpa [List.mem_range] using hcov a
  have hsorted : ((sortChunks c).map Prod.fst).Sorted (· ≤ ·) := by
    have hs := List.sorted_insertionSort
      (fun a b : Nat × String => a.1 ≤ b.1) c
    exact List.pairwise_map.mpr hs
  exact List.eq_of_perm_of_sorted (hperm.trans hperm2) hsorted
    (List.sorted_le_range n)

end DocAI

namespace DocAI

/-- Characterization of `complete_chunked_upload` on a fully received
session: with `payload i` the bytes stored for chunk `i`, when the declared
size matches, completion succeeds, produces the artifact obtained by
concatenating the payloads in ascending index order, deletes the chunk files
and removes the session. -/
theorem complete_spec_ok (st : ServerState) (uploadId : String)
    (s : UploadSession) (payload : Nat → Bytes)
    (hs : dlookup st.sessions uploadId = some s)
    (hnd : (dkeys s.chunks).Nodup)
    (hcov : ∀ i, i ∈ dkeys s.chunks ↔ i < s.totalChunks.toNat)
    (hpaths : (s.chunks.map Prod.snd).Nodup)
    (hdata : ∀ e ∈ s.chunks, dlookup st.chunkFiles e.2 = some (payload e.1))
    (hsize : ((((List.range s.totalChunks.toNat).map payload).flatten).length : Int)
      = s.totalSize) :
    complete_chunked_upload st uploadId =
      (.ok { fileId := uuidGen st.nextUuid,
             fileName := uuidGen st.nextUuid ++ "_" ++ s.fileName,
             url := destDir s ++ "/" ++ (uuidGen st.nextUuid ++ "_" ++ s.fileName),
             size := ((List.range s.totalChunks.toNat).map payload).flatten.length,
             message := "File " ++ s.fileName
               ++ " uploaded successfully via chunked upload" },
       { st with
           nextUuid := st.nextUuid + 1,
           chunkFiles := eraseChunkFiles st.chunkFiles (sortChunks s.chunks),
           artifacts := dinsert st.artifacts
             (destDir s ++ "/" ++ (uuidGen st.nextUuid ++ "_" ++ s.fileName))
             (((List.range s.totalChunks.toNat).map payload).flatten),
           sessions := derase st.sessions uploadId }) := by
  have hnd' : ((sortChunks s.chunks).map Prod.snd).Nodup :=
    (((sortChunks_perm s.chunks).map Prod.snd).nodup_iff).mpr hpaths
  have hdata' : ∀ e ∈ sortChunks s.chunks,
      dlookup st.chunkFiles e.2 = some (payload e.1) :=
    fun e he => hdata e ((sortChunks_perm s.chunks).mem_iff.mp he)
  have hasm := assembleChunks_ok payload (sortChunks s.chunks)
    st.chunkFiles [] hnd' hdata'
  have hmapped : ((sortChunks s.chunks).map (fun e => payload e.1))
      = (List.range s.totalChunks.toNat).map payload := by
    have : (fun e : Nat × String => payload e.1) = payload ∘ Prod.fst := rfl
    rw [this, ← List.map_map, sortChunks_map_fst_eq_range _ _ hnd hcov]
  have hA : (List.range s.totalChunks.toNat).all
      (fun i => (dkeys s.chunks).contains i) = true := by
    rw [List.all_eq_true]
    intro i hi
    simp only [List.mem_range] at hi
    simpa using (hcov i).mpr hi
  have hB : (dkeys s.chunks).all
      (fun i => (List.range s.totalChunks.toNat).contains i) = true := by
    rw [List.all_eq_true]
    intro i hi
    simpa [List.mem_range] using (hcov i).mp hi
  simp only [complete_chunked_upload, hs, hA, hB, Bool.and_self]
  rw [if_neg (show ¬ (true = false) by simp)]
  rw [hasm] at *
  simp only [List.nil_append, hmapped]
  rw [if_neg (by rw [hsize]; simp)]

end DocAI

namespace DocAI

/-- Sequentially ingest a list of `(index, payload)` chunks through
`upload_chunk`, keeping only the final state. -/
def ingestAll (st : ServerState) (uploadId : String) :
    List (Nat × Bytes) → ServerState
  | [] => st
  | (i, d) :: rest =>
    ingestAll (upload_chunk st uploadId (i : Int) d).2 uploadId rest

theorem dinsert_lookup_self_eq {α β : Type} [DecidableEq α]
    {l : List (α × β)} {k : α} {v : β} (h : dlookup l k = some v) :
    dinsert l k v = l := by
  induction l with
  | nil => simp [dlookup] at h
  | cons e rest ih =>
    obtain ⟨a, b⟩ := e
    by_cases ha : a = k
    · subst ha
      simp [dlookup] at h
      simp [dinsert, h]
    · simp [dlookup, ha] at h
      simp [dinsert, ha, ih h]

theorem eraseChunkFiles_eq_filter (F : List (String × Bytes))
    (cs : List (Nat × String)) :
    eraseChunkFiles F cs
      = F.filter (fun e => decide (e.1 ∉ cs.map Prod.snd)) := by
  induction cs generalizing F with
  | nil => simp [eraseChunkFiles]
  | cons c rest ih =>
    rw [eraseChunkFiles_cons, ih]
    show (List.filter _ (List.filter _ F)) = _
    rw [List.filter_filter]
    apply List.filter_congr
    intro e _
    by_cases h1 : e.1 = c.2 <;> by_cases h2 : e.1 ∈ rest.map Prod.snd <;>
      simp [h1, h2]

/-- Ingesting a list of pairwise-distinct, in-range, not-yet-received chunk
indices appends the corresponding entries to the session's chunk dict and the
chunk files, in ingestion order. -/
theorem ingestAll_spec (uploadId : String) :
    ∀ (L : List (Nat × Bytes)) (st : ServerState) (s : UploadSession),
    dlookup st.sessions uploadId = some s →
    (∀ i ∈ L.map Prod.fst, (i : Int) < s.totalChunks) →
    (∀ i ∈ L.map Prod.fst, dlookup s.chunks i = none) →
    (L.map Prod.fst).Nodup →
    (∀ i ∈ L.map Prod.fst,
      dlookup st.chunkFiles (chunkPath uploadId (i : Int)) = none) →
    (∀ i ∈ L.map Prod.fst, ∀ j ∈ L.map Prod.fst,
      chunkPath uploadId (i : Int) = chunkPath uploadId (j : Int) → i = j) →
    ingestAll st uploadId L = { st with
      sessions := dinsert st.sessions uploadId
        { s with chunks := s.chunks
            ++ L.map (fun e => (e.1, chunkPath uploadId (e.1 : Int))) },
      chunkFiles := st.chunkFiles
        ++ L.map (fun e => (chunkPath uploadId (e.1 : Int), e.2)) } := by
  intro L
  induction L with
  | nil =>
    intro st s hs _ _ _ _ _
    simp [ingestAll, dinsert_lookup_self_eq hs]
  | cons c rest ih =>
    intro st s hs hrange hnew hndL hfresh hpinj
    obtain ⟨i, d⟩ := c
    have hiK : i ∈ ((i, d) :: rest).map Prod.fst := by simp
    have hguard : ¬ ((i : Int) < 0 ∨ s.totalChunks ≤ (i : Int)) := by
      push_neg
      exact ⟨Int.natCast_nonneg i, hrange i hiK⟩
    have htoNat : ((i : Int)).toNat = i := rfl
    have hnewi : dlookup s.chunks ((i : Int)).toNat = none := by
      rw [htoNat]; exact hnew i hiK
    have hstep : (upload_chunk st uploadId (i : Int) d).2 = { st with
        chunkFiles := dinsert st.chunkFiles (chunkPath uploadId (i : Int)) d,
        sessions := dinsert st.sessions uploadId
          { s with chunks := dinsert s.chunks i (chunkPath uploadId (i : Int)) } } := by
      simp only [upload_chunk, hs, hguard, if_false, htoNat, hnew i hiK]
    simp only [List.map_cons, List.nodup_cons] at hndL
    have hK : ∀ j ∈ rest.map Prod.fst, j ∈ ((i, d) :: rest).map Prod.fst := by
      intro j hj; simp [hj]
    have hne : ∀ j ∈ rest.map Prod.fst, i ≠ j := by
      intro j hj hij
      exact hndL.1 (hij ▸ hj)
    have hpne : ∀ j ∈ rest.map Prod.fst,
        chunkPath uploadId (i : Int) ≠ chunkPath uploadId (j : Int) := by
      intro j hj hp
      exact hne j hj (hpinj i hiK j (hK j hj) hp)
    have hs' : dlookup (dinsert st.sessions uploadId
        { s with chunks := dinsert s.chunks i (chunkPath uploadId (i : Int)) })
        uploadId = some _ := dlookup_dinsert_self _ _ _
    have happ : dinsert s.chunks i (chunkPath uploadId (i : Int))
        = s.chunks ++ [(i, chunkPath uploadId (i : Int))] :=
      dinsert_eq_append _ (hnew i hiK)
    have happF : dinsert st.chunkFiles (chunkPath uploadId (i : Int)) d
        = st.chunkFiles ++ [(chunkPath uploadId (i : Int), d)] :=
      dinsert_eq_append _ (hfresh i hiK)
    have hrest := ih { st with
        chunkFiles := dinsert st.chunkFiles (chunkPath uploadId (i : Int)) d,
        sessions := dinsert st.sessions uploadId
          { s with chunks := dinsert s.chunks i (chunkPath uploadId (i : Int)) } }
      { s with chunks := dinsert s.chunks i (chunkPath uploadId (i : Int)) }
      hs'
      (fun j hj => hrange j (hK j hj))
      (by
        intro j hj
        rw [happ, dlookup_append_right _ (hnew j (hK j hj))]
        have : ¬ i = j := hne j hj
        simp [dlookup, this])
      hndL.2
      (by
        intro j hj
        rw [happF, dlookup_append_right _ (hfresh j (hK j hj))]
        simp [dlookup, hpne j hj])
      (fun a ha b hb hp => hpinj a (hK a ha) b (hK b hb) hp)
    show ingestAll (upload_chunk st uploadId (i : Int) d).2 uploadId rest = _
    rw [hstep, hrest]
    simp only [happ, happF, dinsert_dinsert_same, List.append_assoc,
      List.singleton_append, List.map_cons]

end DocAI

namespace DocAI

theorem derase_dinsert_self {α β : Type} [DecidableEq α] (l : List (α × β))
    (k : α) (v : β) : derase (dinsert l k v) k = derase l k := by
  induction l with
  | nil => simp [dinsert, derase]
  | cons e rest ih =>
    obtain ⟨a, b⟩ := e
    by_cases ha : a = k
    · subst ha; simp [dinsert, derase, List.filter]
    · simp [dinsert, derase, List.filter, ha] at ih ⊢
      exact ih

theorem dlookup_of_mem_nodupKeys {α β : Type} [DecidableEq α]
    {L : List (α × β)} (hnd : (L.map Prod.fst).Nodup) {k : α} {v : β}
    (h : (k, v) ∈ L) : dlookup L k = some v := by
  induction L with
  | nil => simp at h
  | cons e rest ih =>
    obtain ⟨a, b⟩ := e
    simp only [List.map_cons, List.nodup_cons] at hnd
    rcases List.mem_cons.mp h with h' | h'
    · rw [← h']
      simp [dlookup]
    · have ha : a ≠ k := by
        intro hh
        exact hnd.1 (hh ▸ List.mem_map_of_mem Prod.fst h')
      simp [dlookup, ha, ih hnd.2 h']

theorem dlookup_perm_eq {α β : Type} [DecidableEq α] {L1 L2 : List (α × β)}
    (hperm : L1.Perm L2) (hnd : (L1.map Prod.fst).Nodup) (k : α) :
    dlookup L1 k = dlookup L2 k := by
  have hnd2 : (L2.map Prod.fst).Nodup := ((hperm.map Prod.fst).nodup_iff).mp hnd
  cases h : dlookup L1 k with
  | none =>
    rw [dlookup_eq_none_iff] at h
    have : k ∉ dkeys L2 := by
      intro hk
      exact h (((hperm.map Prod.fst).mem_iff).mpr hk)
    exact ((dlookup_eq_none_iff L2 k).mpr this).symm
  | some v =>
    exact (dlookup_of_mem_nodupKeys hnd2 (hperm.mem_iff.mp (dlookup_mem h))).symm

/-- Looking a path up in a key-mapped ingestion list is looking the index up
in the list itself, provided the path function is injective on the keys. -/
theorem dlookup_keymap (f : Nat → String) :
    ∀ (L : List (Nat × Bytes)) (i : Nat),
    (∀ a ∈ L.map Prod.fst, ∀ b ∈ L.map Prod.fst, f a = f b → a = b) →
    i ∈ L.map Prod.fst →
    dlookup (L.map (fun e => (f e.1, e.2))) (f i) = dlookup L i := by
  intro L
  induction L with
  | nil => intro i _ hi; simp at hi
  | cons e rest ih =>
    intro i hinj hi
    obtain ⟨a, d⟩ := e
    by_cases ha : a = i
    · subst ha
      simp [dlookup]
    · have hi' : i ∈ rest.map Prod.fst := by
        rcases List.mem_cons.mp hi with h' | h'
        · exact absurd h'.symm ha
        · exact h'
      have hfa : ¬ f a = f i := by
        intro hh
        exact ha (hinj a (by simp) i hi hh)
      have hinj' : ∀ x ∈ rest.map Prod.fst, ∀ y ∈ rest.map Prod.fst,
          f x = f y → x = y := by
        intro x hx y hy
        exact hinj x (by simp [hx]) y (by simp [hy])
      simp only [List.map_cons, dlookup, hfa, ha, if_false]
      exact ih i hinj' hi'

/-- The payload function an ingestion list associates to each chunk index. -/
def payloadOf (L : List (Nat × Bytes)) : Nat → Bytes :=
  fun i => (dlookup L i).getD []

end DocAI

namespace DocAI

/-- Ingesting a full set of chunks into a fresh session and completing:
the outcome depends on the ingestion list only through the index-to-payload
map, and the final state keeps no chunk file and no session. -/
theorem ingest_complete_canonical (st : ServerState) (uploadId : String)
    (s : UploadSession) (L : List (Nat × Bytes))
    (hs : dlookup st.sessions uploadId = some s)
    (hempty : s.chunks = [])
    (hnd : (L.map Prod.fst).Nodup)
    (hcov : ∀ i, i ∈ L.map Prod.fst ↔ i < s.totalChunks.toNat)
    (hfresh : ∀ i ∈ L.map Prod.fst,
      dlookup st.chunkFiles (chunkPath uploadId (i : Int)) = none)
    (hpinj : ∀ i ∈ L.map Prod.fst, ∀ j ∈ L.map Prod.fst,
      chunkPath uploadId (i : Int) = chunkPath uploadId (j : Int) → i = j)
    (hsize : ((((L.map (fun e => e.2.length)).sum : Nat) : Int)) = s.totalSize) :
    complete_chunked_upload (ingestAll st uploadId L) uploadId =
      (.ok { fileId := uuidGen st.nextUuid,
             fileName := uuidGen st.nextUuid ++ "_" ++ s.fileName,
             url := destDir s ++ "/" ++ (uuidGen st.nextUuid ++ "_" ++ s.fileName),
             size := ((List.range s.totalChunks.toNat).map
               (payloadOf L)).flatten.length,
             message := "File " ++ s.fileName
               ++ " uploaded successfully via chunked upload" },
       { st with nextUuid := st.nextUuid + 1,
                 artifacts := dinsert st.artifacts
                   (destDir s ++ "/" ++ (uuidGen st.nextUuid ++ "_" ++ s.fileName))
                   (((List.range s.totalChunks.toNat).map (payloadOf L)).flatten),
                 sessions := derase st.sessions uploadId }) := by
  have hrange : ∀ i ∈ L.map Prod.fst, (i : Int) < s.totalChunks := by
    intro i hi
    have := (hcov i).mp hi
    omega
  have hingest := ingestAll_spec uploadId L st s hs hrange
    (fun i _ => by rw [hempty]; rfl) hnd hfresh hpinj
  rw [hempty] at hingest
  simp only [List.nil_append] at hingest
  set sA : UploadSession :=
    { s with chunks := L.map (fun e => (e.1, chunkPath uploadId (e.1 : Int))) }
    with hsA_def
  set stA : ServerState := { st with
      sessions := dinsert st.sessions uploadId sA,
      chunkFiles := st.chunkFiles
        ++ L.map (fun e => (chunkPath uploadId (e.1 : Int), e.2)) }
    with hstA_def
  have hkeysA : dkeys sA.chunks = L.map Prod.fst := by
    simp only [hsA_def, dkeys, List.map_map]
    rfl
  have hsA : dlookup stA.sessions uploadId = some sA := dlookup_dinsert_self _ _ _
  have hndA : (dkeys sA.chunks).Nodup := by rw [hkeysA]; exact hnd
  have hcovA : ∀ i, i ∈ dkeys sA.chunks ↔ i < sA.totalChunks.toNat := by
    intro i
    rw [hkeysA]
    exact hcov i
  have hpathsA : (sA.chunks.map Prod.snd).Nodup := by
    have hmaps : sA.chunks.map Prod.snd
        = (L.map Prod.fst).map (fun i : Nat => chunkPath uploadId (i : Int)) := by
      simp only [hsA_def, List.map_map]
      rfl
    rw [hmaps]
    exact List.Nodup.map_on hpinj hnd
  have hdataA : ∀ e ∈ sA.chunks,
      dlookup stA.chunkFiles e.2 = some (payloadOf L e.1) := by
    intro e he
    simp only [hsA_def] at he
    obtain ⟨⟨i, d⟩, hmem, rfl⟩ := List.mem_map.mp he
    have hiK : i ∈ L.map Prod.fst := List.mem_map_of_mem Prod.fst hmem
    have h1 : dlookup stA.chunkFiles (chunkPath uploadId (i : Int))
        = dlookup (L.map (fun e => (chunkPath uploadId (e.1 : Int), e.2)))
          (chunkPath uploadId (i : Int)) := by
      simp only [hstA_def]
      exact dlookup_append_right _ (hfresh i hiK)
    have h2 := dlookup_keymap (fun i => chunkPath uploadId (i : Int)) L i hpinj hiK
    have h3 : dlookup L i = some d := dlookup_of_mem_nodupKeys hnd hmem
    simp only [h1, h2, h3, payloadOf]
    rfl
  have hpermkeys : (L.map Prod.fst).Perm (List.range s.totalChunks.toNat) := by
    rw [List.perm_ext_iff_of_nodup hnd (List.nodup_range _)]
    intro a
    rw [List.mem_range]
    exact hcov a
  have hsizeA :
      ((((List.range sA.totalChunks.toNat).map (payloadOf L)).flatten.length : Int))
        = sA.totalSize := by
    have h1 : ((List.range s.totalChunks.toNat).map (payloadOf L)).flatten.length
        = ((List.range s.totalChunks.toNat).map
            (fun i => (payloadOf L i).length)).sum := by
      rw [List.length_flatten, List.map_map]
      rfl
    have h2 : ((List.range s.totalChunks.toNat).map
          (fun i => (payloadOf L i).length)).sum
        = ((L.map Prod.fst).map (fun i => (payloadOf L i).length)).sum :=
      ((hpermkeys.map (fun i => (payloadOf L i).length)).sum_eq).symm
    have h3 : (L.map Prod.fst).map (fun i => (payloadOf L i).length)
        = L.map (fun e => e.2.length) := by
      rw [List.map_map]
      apply List.map_congr_left
      intro e he
      have : dlookup L e.1 = some e.2 := dlookup_of_mem_nodupKeys hnd he
      simp [Function.comp, payloadOf, this]
    have hnat : ((List.range s.totalChunks.toNat).map (payloadOf L)).flatten.length
        = (L.map (fun e => e.2.length)).sum := by
      rw [h1, h2, h3]
    show ((((List.range s.totalChunks.toNat).map (payloadOf L)).flatten.length : Nat) : Int)
      = s.totalSize
    rw [hnat]
    exact hsize
  have hcomplete := complete_spec_ok stA uploadId sA (payloadOf L)
    hsA hndA hcovA hpathsA hdataA hsizeA
  rw [hingest, hcomplete]
  have hdest : destDir sA = destDir s := rfl
  have hfn : sA.fileName = s.fileName := rfl
  have htc : sA.totalChunks = s.totalChunks := rfl
  have hsess : derase stA.sessions uploadId = derase st.sessions uploadId := by
    simp only [hstA_def]
    exact derase_dinsert_self _ _ _
  have hfiles : eraseChunkFiles stA.chunkFiles (sortChunks sA.chunks)
      = st.chunkFiles := by
    rw [eraseChunkFiles_eq_filter]
    have hcong : ∀ e ∈ stA.chunkFiles,
        (decide (e.1 ∉ (sortChunks sA.chunks).map Prod.snd))
          = (decide (e.1 ∉ sA.chunks.map Prod.snd)) := by
      intro e _
      simp [((sortChunks_perm sA.chunks).map Prod.snd).mem_iff]
    rw [List.filter_congr hcong]
    have hsplit : stA.chunkFiles = st.chunkFiles
        ++ L.map (fun e => (chunkPath uploadId (e.1 : Int), e.2)) := rfl
    rw [hsplit, List.filter_append]
    have hleft : st.chunkFiles.filter
        (fun e => decide (e.1 ∉ sA.chunks.map Prod.snd)) = st.chunkFiles := by
      rw [List.filter_eq_self]
      intro a ha
      simp only [decide_eq_true_eq]
      intro hmem
      simp only [hsA_def, List.map_map] at hmem
      obtain ⟨⟨i, d⟩, hmemL, hpa⟩ := List.mem_map.mp hmem
      have hiK : i ∈ L.map Prod.fst := List.mem_map_of_mem Prod.fst hmemL
      have : dlookup st.chunkFiles a.1 = none := by
        rw [show a.1 = chunkPath uploadId (i : Int) from hpa.symm]
        exact hfresh i hiK
      rw [dlookup_eq_none_iff] at this
      exact this (List.mem_map_of_mem Prod.fst ha)
    have hright : (L.map (fun e => (chunkPath uploadId (e.1 : Int), e.2))).filter
        (fun e => decide (e.1 ∉ sA.chunks.map Prod.snd)) = [] := by
      rw [List.filter_eq_nil_iff]
      intro a ha
      obtain ⟨⟨i, d⟩, hmemL, hpa⟩ := List.mem_map.mp ha
      simp only [decide_eq_true_eq, Decidable.not_not]
      rw [show a.1 = chunkPath uploadId (i : Int) from by rw [← hpa]]
      have : (i, chunkPath uploadId (i : Int)) ∈
          L.map (fun e => (e.1, chunkPath uploadId (e.1 : Int))) :=
        List.mem_map_of_mem _ hmemL
      exact List.mem_map_of_mem Prod.snd this
    rw [hleft, hright, List.append_nil]
  rw [hsess, hfiles]
  rfl

end DocAI

namespace DocAI

/-- C5: assembly concatenates chunks in ascending chunk-index order
regardless of arrival order: for a fresh session, ingesting any permutation
of the same chunk list and then completing yields the identical result —
same response, same final state, and in particular a byte-identical
artifact. -/
theorem complete_order_independence (st : ServerState) (uploadId : String)
    (s : UploadSession) (L1 L2 : List (Nat × Bytes))
    (hperm : L1.Perm L2)
    (hs : dlookup st.sessions uploadId = some s)
    (hempty : s.chunks = [])
    (hnd : (L1.map Prod.fst).Nodup)
    (hcov : ∀ i, i ∈ L1.map Prod.fst ↔ i < s.totalChunks.toNat)
    (hfresh : ∀ i ∈ L1.map Prod.fst,
      dlookup st.chunkFiles (chunkPath uploadId (i : Int)) = none)
    (hpinj : ∀ i ∈ L1.map Prod.fst, ∀ j ∈ L1.map Prod.fst,
      chunkPath uploadId (i : Int) = chunkPath uploadId (j : Int) → i = j)
    (hsize : ((((L1.map (fun e => e.2.length)).sum : Nat) : Int)) = s.totalSize) :
    complete_chunked_upload (ingestAll st uploadId L1) uploadId
      = complete_chunked_upload (ingestAll st uploadId L2) uploadId := by
  have hkeysperm := hperm.map Prod.fst
  have hnd2 : (L2.map Prod.fst).Nodup := (hkeysperm.nodup_iff).mp hnd
  have hcov2 : ∀ i, i ∈ L2.map Prod.fst ↔ i < s.totalChunks.toNat :=
    fun i => Iff.trans (hkeysperm.mem_iff).symm (hcov i)
  have hfresh2 : ∀ i ∈ L2.map Prod.fst,
      dlookup st.chunkFiles (chunkPath uploadId (i : Int)) = none :=
    fun i hi => hfresh i ((hkeysperm.mem_iff).mpr hi)
  have hpinj2 : ∀ i ∈ L2.map Prod.fst, ∀ j ∈ L2.map Prod.fst,
      chunkPath uploadId (i : Int) = chunkPath uploadId (j : Int) → i = j :=
    fun i hi j hj => hpinj i ((hkeysperm.mem_iff).mpr hi)
      j ((hkeysperm.mem_iff).mpr hj)
  have hsize2 : ((((L2.map (fun e => e.2.length)).sum : Nat) : Int))
      = s.totalSize := by
    have hsum : (L1.map (fun e => e.2.length)).sum
        = (L2.map (fun e => e.2.length)).sum :=
      (hperm.map (fun e => e.2.length)).sum_eq
    rw [← hsum]
    exact hsize
  have hpay : payloadOf L1 = payloadOf L2 := by
    funext i
    simp only [payloadOf, dlookup_perm_eq hperm hnd i]
  rw [ingest_complete_canonical st uploadId s L1 hs hempty hnd hcov hfresh
      hpinj hsize,
    ingest_complete_canonical st uploadId s L2 hs hempty hnd2 hcov2 hfresh2
      hpinj2 hsize2, hpay]

/-- C6: completing a session that has received every index in
`[0, totalChunks)` with chunk bytes summing to `totalSize` succeeds; the
artifact equals the concatenation of the chunk payloads in index order, the
reported size is that byte count (equal to `totalSize` by the size
hypothesis), and the session is removed from the registry. -/
theorem complete_end_to_end (st : ServerState) (uploadId : String)
    (s : UploadSession) (payload : Nat → Bytes)
    (hs : dlookup st.sessions uploadId = some s)
    (hnd : (dkeys s.chunks).Nodup)
    (hcov : ∀ i, i ∈ dkeys s.chunks ↔ i < s.totalChunks.toNat)
    (hpaths : (s.chunks.map Prod.snd).Nodup)
    (hdata : ∀ e ∈ s.chunks, dlookup st.chunkFiles e.2 = some (payload e.1))
    (hsize : ((((List.range s.totalChunks.toNat).map payload).flatten).length : Int)
      = s.totalSize) :
    (complete_chunked_upload st uploadId).1
      = .ok { fileId := uuidGen st.nextUuid,
              fileName := uuidGen st.nextUuid ++ "_" ++ s.fileName,
              url := destDir s ++ "/" ++ (uuidGen st.nextUuid ++ "_" ++ s.fileName),
              size := ((List.range s.totalChunks.toNat).map payload).flatten.length,
              message := "File " ++ s.fileName
                ++ " uploaded successfully via chunked upload" }
    ∧ dlookup (complete_chunked_upload st uploadId).2.artifacts
        (destDir s ++ "/" ++ (uuidGen st.nextUuid ++ "_" ++ s.fileName))
        = some (((List.range s.totalChunks.toNat).map payload).flatten)
    ∧ dlookup (complete_chunked_upload st uploadId).2.sessions uploadId = none := by
  rw [complete_spec_ok st uploadId s payload hs hnd hcov hpaths hdata hsize]
  exact ⟨rfl, dlookup_dinsert_self _ _ _, dlookup_derase_self _ _⟩

/-- Floor division of natural-number casts computes the natural division. -/
theorem natCast_fdiv (m n : Nat) :
    ((m : Int)).fdiv (n : Int) = ((m / n : Nat) : Int) := by
  cases m with
  | zero => simp [Int.fdiv]
  | succ k => rfl

/-- For positive operands, Python's `(t + c - 1) // c` is the ceiling of
`t / c`. -/
theorem fdiv_pos_eq_ceilDiv (t c : Int) (ht : 0 < t) (hc : 0 < c) :
    (t + c - 1).fdiv c = ((t.toNat ⌈/⌉ c.toNat : Nat) : Int) := by
  obtain ⟨T, hT⟩ : ∃ T : Nat, t = (T : Int) := ⟨t.toNat, (Int.toNat_of_nonneg (by omega)).symm⟩
  obtain ⟨C, hC⟩ : ∃ C : Nat, c = (C : Int) := ⟨c.toNat, (Int.toNat_of_nonneg (by omega)).symm⟩
  subst hT
  subst hC
  have h1 : ((T : Int) + (C : Int) - 1) = ((T + C - 1 : Nat) : Int) := by omega
  rw [h1]
  have h2 : ((T + C - 1 : Nat) : Int).fdiv ((C : Nat) : Int)
      = (((T + C - 1) / C : Nat) : Int) := natCast_fdiv _ _
  rw [h2, Int.toNat_natCast, Int.toNat_natCast, Nat.ceilDiv_eq_add_pred_div]

/-- C3: for positive `totalSize` and `chunkSize`, `initiate` fails exactly
when `totalChunks` differs from `ceil(totalSize / chunkSize)`; the failure
carries `InvalidChunkCount` with the expected count (wrapped by the generic
handler) and leaves the state, in particular the session registry,
unchanged. -/
theorem init_count_validation (st : ServerState) (fileName : String)
    (totalSize chunkSize totalChunks : Int)
    (fileType projectId folderId : Option String)
    (ht : 0 < totalSize) (hc : 0 < chunkSize) :
    ((∃ e, (initialize_chunked_upload st fileName totalSize chunkSize totalChunks
        fileType projectId folderId).1 = .error e)
      ↔ totalChunks ≠ ((totalSize.toNat ⌈/⌉ chunkSize.toNat : Nat) : Int))
    ∧ (totalChunks ≠ ((totalSize.toNat ⌈/⌉ chunkSize.toNat : Nat) : Int) →
        initialize_chunked_upload st fileName totalSize chunkSize totalChunks
          fileType projectId folderId
        = (.error (.failedInit (.invalidChunkCount
            ((totalSize.toNat ⌈/⌉ chunkSize.toNat : Nat) : Int) totalChunks)),
           st)) := by
  have hc0 : ¬ chunkSize = 0 := by omega
  have hfd := fdiv_pos_eq_ceilDiv totalSize chunkSize ht hc
  refine ⟨⟨?_, ?_⟩, ?_⟩
  · rintro ⟨e, he⟩
    by_contra hne
    simp [initialize_chunked_upload, hc0, hfd, hne] at he
  · intro hne
    refine ⟨.failedInit (.invalidChunkCount
      ((totalSize.toNat ⌈/⌉ chunkSize.toNat : Nat) : Int) totalChunks), ?_⟩
    simp [initialize_chunked_upload, hc0, hfd, hne]
  · intro hne
    simp [initialize_chunked_upload, hc0, hfd, hne]

end DocAI

namespace DocAI

/-- C4: after a first successful ingest of index `i`, a second `ingestChunk`
with the same `(uploadId, chunkIndex)` (any payload) returns success
immediately and leaves the state — session registry, received set and chunk
storage — exactly as after the first call, which stored exactly one chunk
file for that index. -/
theorem ingest_idempotent (st : ServerState) (uploadId : String)
    (s : UploadSession) (i : Int) (d d' : Bytes)
    (hs : dlookup st.sessions uploadId = some s)
    (h0 : 0 ≤ i) (hlt : i < s.totalChunks)
    (hnew : dlookup s.chunks i.toNat = none)
    (hfresh : dlookup st.chunkFiles (chunkPath uploadId i) = none) :
    (upload_chunk (upload_chunk st uploadId i d).2 uploadId i d').1
        = .ok { success := true, chunkIndex := none, chunkSize := none,
                message := "Chunk " ++ toString i ++ " already received" }
    ∧ (upload_chunk (upload_chunk st uploadId i d).2 uploadId i d').2
        = (upload_chunk st uploadId i d).2
    ∧ ((upload_chunk st uploadId i d).2.chunkFiles.countP
        (fun e => e.1 == chunkPath uploadId i)) = 1 := by
  have hguard : ¬ (i < 0 ∨ s.totalChunks ≤ i) := by omega
  have hstep : (upload_chunk st uploadId i d).2 = { st with
      chunkFiles := dinsert st.chunkFiles (chunkPath uploadId i) d,
      sessions := dinsert st.sessions uploadId
        { s with chunks := dinsert s.chunks i.toNat (chunkPath uploadId i) } } := by
    simp only [upload_chunk, hs, hguard, if_false, hnew]
  have hs1 : dlookup (upload_chunk st uploadId i d).2.sessions uploadId
      = some { s with chunks := dinsert s.chunks i.toNat (chunkPath uploadId i) } := by
    rw [hstep]
    exact dlookup_dinsert_self _ _ _
  have hfound : dlookup (dinsert s.chunks i.toNat (chunkPath uploadId i)) i.toNat
      = some (chunkPath uploadId i) := dlookup_dinsert_self _ _ _
  refine ⟨?_, ?_, ?_⟩
  · conv_lhs => rw [hstep]
    simp only [upload_chunk, dlookup_dinsert_self, hguard, if_false, hfound]
  · conv_lhs => rw [hstep]
    simp only [upload_chunk, hs, dlookup_dinsert_self, hguard, if_false,
      hfound, hnew]
  · rw [hstep]
    show (dinsert st.chunkFiles (chunkPath uploadId i) d).countP _ = 1
    rw [dinsert_eq_append _ hfresh, List.countP_append,
      countP_key_eq_zero hfresh]
    simp

/-- C9 (amended): a first-time successful ingest reports the chunk index and
the accepted byte length together with success; the idempotent re-send of an
already-received index reports success with a message only, omitting the
`chunkIndex` and `chunkSize` fields. -/
theorem ingest_response_shape (st : ServerState) (uploadId : String)
    (s : UploadSession) (i : Int) (d : Bytes)
    (hs : dlookup st.sessions uploadId = some s)
    (h0 : 0 ≤ i) (hlt : i < s.totalChunks) :
    (dlookup s.chunks i.toNat = none →
      (upload_chunk st uploadId i d).1
        = .ok { success := true, chunkIndex := some i,
                chunkSize := some d.length,
                message := "Chunk " ++ toString i ++ " uploaded successfully" })
    ∧ (∀ p, dlookup s.chunks i.toNat = some p →
      (upload_chunk st uploadId i d).1
        = .ok { success := true, chunkIndex := none, chunkSize := none,
                message := "Chunk " ++ toString i ++ " already received" }) := by
  have hguard : ¬ (i < 0 ∨ s.totalChunks ≤ i) := by omega
  constructor
  · intro hnone
    simp only [upload_chunk, hs, hguard, if_false, hnone]
  · intro p hp
    simp only [upload_chunk, hs, hguard, if_false, hp]

/-- C7: cancelling an existing session deletes every chunk file recorded in
the session, removes the session from the registry, and a subsequent status
call on the same id fails with SessionNotFound. -/
theorem cancel_cleans_up (st : ServerState) (uploadId : String)
    (s : UploadSession)
    (hs : dlookup st.sessions uploadId = some s) :
    (cancel_chunked_upload st uploadId).1
        = .ok ("Upload " ++ uploadId ++ " cancelled successfully")
    ∧ dlookup (cancel_chunked_upload st uploadId).2.sessions uploadId = none
    ∧ (∀ e ∈ s.chunks,
        dlookup (cancel_chunked_upload st uploadId).2.chunkFiles e.2 = none)
    ∧ (get_upload_status (cancel_chunked_upload st uploadId).2 uploadId).1
        = .error .sessionNotFound := by
  simp only [cancel_chunked_upload, hs]
  refine ⟨trivial, dlookup_derase_self _ _, ?_, ?_⟩
  · intro e he
    rw [dlookup_eraseChunkFiles]
    rw [if_pos (List.mem_map_of_mem Prod.snd he)]
  · simp only [get_upload_status, dlookup_derase_self]

/-- C10: every session created by `initiate` records `expiresAt` equal to
`createdAt`, both read from the clock at creation with no validity window
added, and the response echoes that timestamp: the declared expiry is the
moment of creation. -/
theorem init_expiry_equals_creation (st : ServerState) (fileName : String)
    (totalSize chunkSize totalChunks : Int)
    (fileType projectId folderId : Option String)
    (resp : InitResponse) (st' : ServerState)
    (h : initialize_chunked_upload st fileName totalSize chunkSize totalChunks
      fileType projectId folderId = (.ok resp, st')) :
    ∃ s, dlookup st'.sessions resp.uploadId = some s
      ∧ s.expiresAt = s.createdAt ∧ s.createdAt = st.clock
      ∧ resp.expiresAt = s.expiresAt := by
  by_cases h0 : chunkSize = 0
  · simp [initialize_chunked_upload, h0] at h
  · by_cases h1 : totalChunks = (totalSize + chunkSize - 1).fdiv chunkSize
    · simp only [initialize_chunked_upload, h0, if_false, h1, ite_not,
        if_pos, Prod.mk.injEq, if_true] at h
      obtain ⟨hresp, hst⟩ := h
      have hresp' := Except.ok.inj hresp
      subst hst
      subst hresp'
      exact ⟨_, dlookup_dinsert_self _ _ _, rfl, rfl, rfl⟩
    · simp [initialize_chunked_upload, h0, h1] at h

end DocAI

namespace DocAI

/-- Invariant of one stored session: every received chunk key lies in
`[0, totalChunks)` and the keys are pairwise distinct. -/
def SessionOK (s : UploadSession) : Prop :=
  (∀ i ∈ dkeys s.chunks, (i : Int) < s.totalChunks) ∧ (dkeys s.chunks).Nodup

/-- Registry-wide invariant: every session in the registry satisfies
`SessionOK`. -/
def RegistryOK (st : ServerState) : Prop := ∀ e ∈ st.sessions, SessionOK e.2

instance (s : UploadSession) : Decidable (SessionOK s) := by
  unfold SessionOK
  infer_instance

instance (st : ServerState) : Decidable (RegistryOK st) := by
  unfold RegistryOK
  infer_instance

/-- `complete` either leaves the session list unchanged or removes the
completed/cleaned-up id; it never adds or mutates a session. -/
theorem complete_sessions_cases (st : ServerState) (uploadId : String) :
    (complete_chunked_upload st uploadId).2.sessions = st.sessions
    ∨ (complete_chunked_upload st uploadId).2.sessions
        = derase st.sessions uploadId := by
  have hclean : ∀ (st' : ServerState), st'.sessions = st.sessions →
      ∀ err, (completeCleanup st' uploadId err).2.sessions = st.sessions
        ∨ (completeCleanup st' uploadId err).2.sessions
            = derase st.sessions uploadId := by
    intro st' hsess err
    unfold completeCleanup
    cases h' : dlookup st'.sessions uploadId with
    | none => left; exact hsess
    | some s' =>
      right
      show derase st'.sessions uploadId = derase st.sessions uploadId
      rw [hsess]
  simp only [complete_chunked_upload]
  split
  · left; rfl
  · split
    · apply hclean
      rfl
    · split
      · apply hclean
        rfl
      · split
        · apply hclean
          rfl
        · right; rfl

/-- C8: the received-chunk keys of every session remain a subset of
`[0, totalChunks)` with at most `totalChunks` distinct entries across all
operations: each operation preserves the registry invariant, `status` does
not change the state at all, `ingestChunk` rejects an out-of-range index with
`InvalidChunkIndex` (wrapped) without recording it, and the invariant bounds
each session's received count by `totalChunks`. -/
theorem received_chunks_invariant (st : ServerState) (hInv : RegistryOK st)
    (fileName : String) (totalSize chunkSize totalChunks : Int)
    (fileType projectId folderId : Option String)
    (uploadId : String) (chunkIndex : Int) (chunkData : Bytes) :
    RegistryOK (initialize_chunked_upload st fileName totalSize chunkSize
      totalChunks fileType projectId folderId).2
    ∧ RegistryOK (upload_chunk st uploadId chunkIndex chunkData).2
    ∧ RegistryOK (complete_chunked_upload st uploadId).2
    ∧ (get_upload_status st uploadId).2 = st
    ∧ RegistryOK (cancel_chunked_upload st uploadId).2
    ∧ (∀ s, dlookup st.sessions uploadId = some s →
        (chunkIndex < 0 ∨ s.totalChunks ≤ chunkIndex) →
        upload_chunk st uploadId chunkIndex chunkData
          = (.error (.failedChunk (.invalidChunkIndex chunkIndex
              s.totalChunks)), st))
    ∧ (∀ e ∈ st.sessions, e.2.chunks.length ≤ e.2.totalChunks.toNat) := by
  have hinit : RegistryOK (initialize_chunked_upload st fileName totalSize
      chunkSize totalChunks fileType projectId folderId).2 := by
    simp only [initialize_chunked_upload]
    split
    · exact hInv
    · split
      · exact hInv
      · intro e he
        rcases mem_dinsert he with h' | h'
        · exact hInv e h'
        · rw [h']
          exact ⟨by simp [dkeys], by simp [dkeys]⟩
  have hupload : RegistryOK (upload_chunk st uploadId chunkIndex chunkData).2 := by
    cases h : dlookup st.sessions uploadId with
    | none =>
      have hst : (upload_chunk st uploadId chunkIndex chunkData).2 = st := by
        simp only [upload_chunk, h]
      rw [hst]
      exact hInv
    | some s =>
      by_cases hguard : chunkIndex < 0 ∨ s.totalChunks ≤ chunkIndex
      · have hst : (upload_chunk st uploadId chunkIndex chunkData).2 = st := by
          simp only [upload_chunk, h, if_pos hguard]
        rw [hst]
        exact hInv
      · cases h2 : dlookup s.chunks chunkIndex.toNat with
        | some p =>
          have hst : (upload_chunk st uploadId chunkIndex chunkData).2 = st := by
            simp only [upload_chunk, h, if_neg hguard, h2]
          rw [hst]
          exact hInv
        | none =>
          have hstep : (upload_chunk st uploadId chunkIndex chunkData).2
              = { st with
                  chunkFiles := dinsert st.chunkFiles
                    (chunkPath uploadId chunkIndex) chunkData,
                  sessions := dinsert st.sessions uploadId
                    { s with chunks := dinsert s.chunks chunkIndex.toNat (chunkPath uploadId chunkIndex) } } := by
            simp only [upload_chunk, h, if_neg hguard, h2]
          rw [hstep]
          intro e he
          rcases mem_dinsert he with h' | h'
          · exact hInv e h'
          · have hSOK : SessionOK s := hInv (uploadId, s) (dlookup_mem h)
            rw [h']
            constructor
            · intro j hj
              rw [dkeys_dinsert] at hj
              by_cases hmem : chunkIndex.toNat ∈ dkeys s.chunks
              · rw [if_pos hmem] at hj
                exact hSOK.1 j hj
              · rw [if_neg hmem] at hj
                rcases List.mem_append.mp hj with hj' | hj'
                · exact hSOK.1 j hj'
                · have hje : j = chunkIndex.toNat := by simpa using hj'
                  subst hje
                  show ((chunkIndex.toNat : Nat) : Int) < s.totalChunks
                  omega
            · show (dkeys (dinsert s.chunks chunkIndex.toNat
                (chunkPath uploadId chunkIndex))).Nodup
              rw [dkeys_dinsert]
              by_cases hmem : chunkIndex.toNat ∈ dkeys s.chunks
              · rw [if_pos hmem]
                exact hSOK.2
              · rw [if_neg hmem]
                simp [List.nodup_append, hSOK.2, hmem]
  have hcomp : RegistryOK (complete_chunked_upload st uploadId).2 := by
    rcases complete_sessions_cases st uploadId with h | h
    · intro e he
      rw [h] at he
      exact hInv e he
    · intro e he
      rw [h] at he
      simp only [derase] at he
      exact hInv e (List.mem_filter.mp he).1
  have hstat : (get_upload_status st uploadId).2 = st := by
    simp only [get_upload_status]
    cases h : dlookup st.sessions uploadId <;> rfl
  have hcanc : RegistryOK (cancel_chunked_upload st uploadId).2 := by
    simp only [cancel_chunked_upload]
    cases h : dlookup st.sessions uploadId with
    | none => exact hInv
    | some s =>
      intro e he
      simp only [derase] at he
      exact hInv e (List.mem_filter.mp he).1
  have hrej : ∀ s, dlookup st.sessions uploadId = some s →
      (chunkIndex < 0 ∨ s.totalChunks ≤ chunkIndex) →
      upload_chunk st uploadId chunkIndex chunkData
        = (.error (.failedChunk (.invalidChunkIndex chunkIndex
            s.totalChunks)), st) := by
    intro s hs hbad
    simp only [upload_chunk, hs, if_pos hbad]
  have hcard : ∀ e ∈ st.sessions,
      e.2.chunks.length ≤ e.2.totalChunks.toNat := by
    intro e he
    have hSOK := hInv e he
    have hlen : (dkeys e.2.chunks).length = e.2.chunks.length := by
      simp [dkeys]
    rw [← hlen]
    have hsub : (dkeys e.2.chunks).toFinset
        ⊆ Finset.range e.2.totalChunks.toNat := by
      intro a ha
      rw [List.mem_toFinset] at ha
      have := hSOK.1 a ha
      rw [Finset.mem_range]
      omega
    calc (dkeys e.2.chunks).length
        = (dkeys e.2.chunks).toFinset.card :=
          (List.toFinset_card_of_nodup hSOK.2).symm
      _ ≤ (Finset.range e.2.totalChunks.toNat).card := Finset.card_le_card hsub
      _ = e.2.totalChunks.toNat := Finset.card_range _
  exact ⟨hinit, hupload, hcomp, hstat, hcanc, hrej, hcard⟩

end DocAI

namespace DocAI

/-- Session for the C1 scenario: 3 declared chunks, indices 0 and 2
received. -/
def sessW1 : UploadSession :=
  { uploadId := "u1", fileName := "f.pdf", totalSize := 300, chunkSize := 100,
    totalChunks := 3, fileType := none, projectId := none, folderId := none,
    chunks := [(0, "temp_chunks/u1_chunk_0"), (2, "temp_chunks/u1_chunk_2")],
    createdAt := 0, expiresAt := 0, status := "initialized" }

/-- Server state for the C1 scenario. -/
def stW1 : ServerState :=
  { sessions := [("u1", sessW1)],
    chunkFiles := [("temp_chunks/u1_chunk_0", [1]),
      ("temp_chunks/u1_chunk_2", [2])],
    artifacts := [], nextUuid := 0, clock := 0 }

/-- C1, behavior of the code at the failing input: completing a session
missing index 1 of 3 does raise the missing-chunk list, but the blanket
exception handler wraps it into a generic failure, deletes both received
chunk files from storage and removes the session from the registry — the
registry and the chunk storage are altered, contradicting the claim. -/
theorem complete_incomplete_destroys_state :
    (complete_chunked_upload stW1 "u1").1
        = .error (.failedComplete (.missingChunks [1]))
    ∧ dlookup (complete_chunked_upload stW1 "u1").2.sessions "u1" = none
    ∧ dlookup (complete_chunked_upload stW1 "u1").2.chunkFiles
        "temp_chunks/u1_chunk_0" = none
    ∧ dlookup (complete_chunked_upload stW1 "u1").2.chunkFiles
        "temp_chunks/u1_chunk_2" = none := by
  refine ⟨?_, ?_, ?_, ?_⟩ <;> rfl

/-- Session for the C2 scenario: 1 declared chunk of totalSize 5, chunk 0
received with only 3 bytes. -/
def sessW2 : UploadSession :=
  { uploadId := "u2", fileName := "g.pdf", totalSize := 5, chunkSize := 5,
    totalChunks := 1, fileType := none, projectId := none, folderId := none,
    chunks := [(0, "temp_chunks/u2_chunk_0")],
    createdAt := 0, expiresAt := 0, status := "initialized" }

/-- Server state for the C2 scenario. -/
def stW2 : ServerState :=
  { sessions := [("u2", sessW2)],
    chunkFiles := [("temp_chunks/u2_chunk_0", [1, 2, 3])],
    artifacts := [], nextUuid := 0, clock := 0 }

/-- C2, behavior of the code at the failing input: on a size mismatch the
partially written artifact is deleted and the SizeMismatch (wrapped by the
generic handler) carries expected and actual byte counts, but the session is
NOT left in place: the exception handler removes it from the registry,
contradicting the claim's retry-ability. -/
theorem complete_size_mismatch_drops_session :
    (complete_chunked_upload stW2 "u2").1
        = .error (.failedComplete (.sizeMismatch 5 3))
    ∧ dlookup (complete_chunked_upload stW2 "u2").2.artifacts
        "static/uploads/temp/uuid-0_g.pdf" = none
    ∧ dlookup (complete_chunked_upload stW2 "u2").2.sessions "u2" = none := by
  refine ⟨?_, ?_, ?_⟩ <;> rfl

/-- Session for the C9 counterexample: chunk 0 already received. -/
def sessW9 : UploadSession :=
  { uploadId := "u9", fileName := "h.pdf", totalSize := 5, chunkSize := 5,
    totalChunks := 1, fileType := none, projectId := none, folderId := none,
    chunks := [(0, "temp_chunks/u9_chunk_0")],
    createdAt := 0, expiresAt := 0, status := "initialized" }

/-- Server state for the C9 counterexample. -/
def stW9 : ServerState :=
  { sessions := [("u9", sessW9)],
    chunkFiles := [("temp_chunks/u9_chunk_0", [1, 2, 3, 4, 5])],
    artifacts := [], nextUuid := 0, clock := 0 }

/-- C9 counterexample: the idempotent re-send of an already-received index
succeeds but its response carries neither the chunk index nor the byte
length — only success and a message — refuting the claim that every
successful ingest reports `{chunkIndex, chunkSize, accepted}`. -/
theorem ingest_resend_omits_fields :
    (upload_chunk stW9 "u9" 0 [9, 9, 9, 9, 9]).1
      = .ok { success := true, chunkIndex := none, chunkSize := none,
              message := "Chunk 0 already received" } := by
  rfl

end DocAI

namespace DocAI

/-- Empty server state for the C3 witness. -/
def stW3 : ServerState :=
  { sessions := [], chunkFiles := [], artifacts := [], nextUuid := 0,
    clock := 0 }

/-- Witness for C3 at the spec's example: `initiate(totalSize=250,
chunkSize=100, totalChunks=2)` fails with expected count 3 and leaves the
state unchanged. -/
theorem init_count_validation_witness :
    initialize_chunked_upload stW3 "a.pdf" 250 100 2 none none none
      = (.error (.failedInit (.invalidChunkCount 3 2)), stW3) := by
  have h := (init_count_validation stW3 "a.pdf" 250 100 2 none none none
    (by decide) (by decide)).2 (by decide)
  exact h

/-- Fresh 2-chunk session for the C4 witness. -/
def sessW4 : UploadSession :=
  { uploadId := "u4", fileName := "b.pdf", totalSize := 3, chunkSize := 2,
    totalChunks := 2, fileType := none, projectId := none, folderId := none,
    chunks := [], createdAt := 0, expiresAt := 0, status := "initialized" }

/-- Server state for the C4 witness. -/
def stW4 : ServerState :=
  { sessions := [("u4", sessW4)], chunkFiles := [], artifacts := [],
    nextUuid := 0, clock := 0 }

/-- Witness for C4: a concrete double ingest of index 0 leaves the state of
the first ingest unchanged. -/
theorem ingest_idempotent_witness :
    (upload_chunk (upload_chunk stW4 "u4" 0 [1, 2]).2 "u4" 0 [9]).2
      = (upload_chunk stW4 "u4" 0 [1, 2]).2 :=
  (ingest_idempotent stW4 "u4" sessW4 0 [1, 2] [9] (by rfl) (by decide)
    (by decide) (by rfl) (by rfl)).2.1

/-- Fresh 3-chunk session for the C5 witness. -/
def sessW5 : UploadSession :=
  { uploadId := "u5", fileName := "c.pdf", totalSize := 3, chunkSize := 1,
    totalChunks := 3, fileType := none, projectId := none, folderId := none,
    chunks := [], createdAt := 0, expiresAt := 0, status := "initialized" }

/-- Server state for the C5 witness. -/
def stW5 : ServerState :=
  { sessions := [("u5", sessW5)], chunkFiles := [], artifacts := [],
    nextUuid := 0, clock := 0 }

/-- Witness for C5 at the spec's example: ingesting indices `[2,0,1]` and
then completing gives the identical result as ingesting `[0,1,2]`. -/
theorem complete_order_independence_witness :
    complete_chunked_upload
        (ingestAll stW5 "u5" [(2, [7]), (0, [5]), (1, [6])]) "u5"
      = complete_chunked_upload
        (ingestAll stW5 "u5" [(0, [5]), (1, [6]), (2, [7])]) "u5" :=
  complete_order_independence stW5 "u5" sessW5
    [(2, [7]), (0, [5]), (1, [6])] [(0, [5]), (1, [6]), (2, [7])]
    (by decide) (by rfl) (by rfl) (by decide)
    (by intro i; simp [sessW5, dkeys]; omega)
    (by decide) (by decide) (by decide)

/-- Fully received 2-chunk session for the C6 witness. -/
def sessW6 : UploadSession :=
  { uploadId := "u6", fileName := "a.pdf", totalSize := 6, chunkSize := 3,
    totalChunks := 2, fileType := none, projectId := none, folderId := none,
    chunks := [(0, "temp_chunks/u6_chunk_0"), (1, "temp_chunks/u6_chunk_1")],
    createdAt := 0, expiresAt := 0, status := "initialized" }

/-- Server state for the C6 witness: chunk 0 holds "foo", chunk 1 holds
"bar". -/
def stW6 : ServerState :=
  { sessions := [("u6", sessW6)],
    chunkFiles := [("temp_chunks/u6_chunk_0", [102, 111, 111]),
      ("temp_chunks/u6_chunk_1", [98, 97, 114])],
    artifacts := [], nextUuid := 0, clock := 0 }

/-- Payload map for the C6 witness: "foo" at index 0, "bar" at index 1. -/
def payloadW6 : Nat → Bytes :=
  fun i => if i = 0 then [102, 111, 111] else [98, 97, 114]

/-- Witness for C6 at the spec's end-to-end example: after completing, the
session is gone from the registry. -/
theorem complete_end_to_end_witness :
    dlookup (complete_chunked_upload stW6 "u6").2.sessions "u6" = none :=
  (complete_end_to_end stW6 "u6" sessW6 payloadW6 (by rfl) (by decide)
    (by intro i; simp [sessW6, dkeys]; omega) (by decide) (by decide)
    (by rfl)).2.2

/-- Session for the C7 witness with one received chunk. -/
def sessW7 : UploadSession :=
  { uploadId := "u7", fileName := "d.pdf", totalSize := 4, chunkSize := 4,
    totalChunks := 1, fileType := none, projectId := none, folderId := none,
    chunks := [(0, "temp_chunks/u7_chunk_0")],
    createdAt := 0, expiresAt := 0, status := "initialized" }

/-- Server state for the C7 witness. -/
def stW7 : ServerState :=
  { sessions := [("u7", sessW7)],
    chunkFiles := [("temp_chunks/u7_chunk_0", [1, 2, 3, 4])],
    artifacts := [], nextUuid := 0, clock := 0 }

/-- Witness for C7: status after cancel fails with SessionNotFound. -/
theorem cancel_cleans_up_witness :
    (get_upload_status (cancel_chunked_upload stW7 "u7").2 "u7").1
      = .error .sessionNotFound :=
  (cancel_cleans_up stW7 "u7" sessW7 (by rfl)).2.2.2

/-- Session for the C8 witness. -/
def sessW8 : UploadSession :=
  { uploadId := "u8", fileName := "e.pdf", totalSize := 6, chunkSize := 3,
    totalChunks := 2, fileType := none, projectId := none, folderId := none,
    chunks := [(0, "temp_chunks/u8_chunk_0")],
    createdAt := 0, expiresAt := 0, status := "initialized" }

/-- Server state for the C8 witness. -/
def stW8 : ServerState :=
  { sessions := [("u8", sessW8)],
    chunkFiles := [("temp_chunks/u8_chunk_0", [1, 2, 3])],
    artifacts := [], nextUuid := 0, clock := 0 }

/-- Witness for C8: ingesting a fresh in-range index preserves the registry
invariant at a concrete state. -/
theorem received_chunks_invariant_witness :
    RegistryOK (upload_chunk stW8 "u8" 1 [7]).2 :=
  (received_chunks_invariant stW8 (by decide) "e.pdf" 6 3 2 none none none
    "u8" 1 [7]).2.1

/-- Fresh 1-chunk session for the C9 witness. -/
def sessW9b : UploadSession :=
  { uploadId := "u9b", fileName := "h.pdf", totalSize := 2, chunkSize := 2,
    totalChunks := 1, fileType := none, projectId := none, folderId := none,
    chunks := [], createdAt := 0, expiresAt := 0, status := "initialized" }

/-- Server state for the C9 witness. -/
def stW9b : ServerState :=
  { sessions := [("u9b", sessW9b)], chunkFiles := [], artifacts := [],
    nextUuid := 0, clock := 0 }

/-- Witness for the amended C9: a first-time ingest reports index and byte
length. -/
theorem ingest_response_shape_witness :
    (upload_chunk stW9b "u9b" 0 [1, 2]).1
      = .ok { success := true, chunkIndex := some 0, chunkSize := some 2,
              message := "Chunk 0 uploaded successfully" } :=
  (ingest_response_shape stW9b "u9b" sessW9b 0 [1, 2] (by rfl) (by decide)
    (by decide)).1 (by rfl)

/-- Empty server state (clock 5) for the C10 witness. -/
def stW10 : ServerState :=
  { sessions := [], chunkFiles := [], artifacts := [], nextUuid := 0,
    clock := 5 }

/-- The session the C10 witness initiation stores. -/
def sessW10 : UploadSession :=
  { uploadId := "uuid-0", fileName := "a.pdf", totalSize := 6, chunkSize := 3,
    totalChunks := 2, fileType := none, projectId := none, folderId := none,
    chunks := [], createdAt := 5, expiresAt := 5, status := "initialized" }

/-- The response the C10 witness initiation returns. -/
def respW10 : InitResponse :=
  { uploadId := "uuid-0", chunkSize := 3, totalChunks := 2, expiresAt := 5 }

/-- The state after the C10 witness initiation. -/
def stW10' : ServerState :=
  { sessions := [("uuid-0", sessW10)], chunkFiles := [], artifacts := [],
    nextUuid := 1, clock := 5 }

/-- Witness for C10: a concrete initiation records and returns an expiry
equal to the creation clock. -/
theorem init_expiry_equals_creation_witness :
    ∃ s, dlookup stW10'.sessions respW10.uploadId = some s
      ∧ s.expiresAt = s.createdAt ∧ s.createdAt = stW10.clock
      ∧ respW10.expiresAt = s.expiresAt :=
  init_expiry_equals_creation stW10 "a.pdf" 6 3 2 none none none
    respW10 stW10' (by rfl)

end DocAI
